import Mathlib

set_option maxHeartbeats 1000000

namespace Cody

/-- Connectivity classification carried on an AuthStatus
(the ephemeralConnectivityStatus field in the source). -/
inductive Connectivity
  | online
  | offline
  | error
  | unknown
deriving DecidableEq, Repr

/-- Model of CodyLLMSiteConfiguration: an opaque-to-the-session-manager
configuration record fetched by the validator; only its identity matters
for the claims, so two representative fields are kept. -/
structure CodyLLMSiteConfiguration where
  chatModel : String := ""
  completionModel : String := ""
deriving DecidableEq, Repr

/-- Raw current-user payload returned by the validator
(the success value of client.getCurrentUserInfo). -/
structure RawUserInfo where
  username : String
  displayName : String
  avatarURL : String
  primaryEmail : Option String
deriving DecidableEq, Repr

/-- User info embedded in an AuthStatus (AuthProvider.ts lines 294-300:
the raw user info, authenticated forced to true, and primaryEmail defaulted
to the empty string). -/
structure UserInfo where
  username : String
  displayName : String
  avatarURL : String
  primaryEmail : String
  authenticated : Bool
deriving DecidableEq, Repr

/-- Site info embedded in an AuthStatus (AuthProvider.ts lines 301-306). -/
structure SiteInfo where
  siteVersion : String
  configOverwrites : Option CodyLLMSiteConfiguration
  siteHasCodyEnabled : Bool
  codyApiVersion : Nat
deriving DecidableEq, Repr

def DOTCOM_URL : String := "https://sourcegraph.com/"

/-- Modelled from the spec: isDotCom (shared package, not under src) decides
whether an endpoint is the public multi-tenant instance; modelled as string
equality with DOTCOM_URL. -/
def isDotCom (url : String) : Bool := url = DOTCOM_URL

/-- The authoritative session snapshot (AuthStatus in the source). -/
structure AuthStatus where
  endpoint : String
  isDotCom : Bool
  isLoggedIn : Bool
  showInvalidAccessTokenError : Bool
  ephemeralConnectivityStatus : Connectivity
  user : Option UserInfo
  site : Option SiteInfo
deriving DecidableEq, Repr

/-- Whether pat occurs as a contiguous sublist of s (structural recursion so
that concrete instances reduce in the kernel). -/
def containsChars (pat : List Char) (s : List Char) : Bool :=
  pat.isPrefixOf s ||
    match s with
    | [] => false
    | _ :: cs => containsChars pat cs

/-- Substring test (JS String.includes for a nonempty pattern). -/
def strContains (s pat : String) : Bool := containsChars pat.data s.data

/-- Fuel-driven splitter on character lists mirroring String.splitOn: acc is
the reversed current chunk; a nonempty separator match ends a chunk. -/
def splitCharsGo (sep : List Char) : Nat → List Char → List Char → List (List Char)
  | 0, s, acc => [acc.reverse ++ s]
  | Nat.succ fuel, s, acc =>
    if sep ≠ [] && sep.isPrefixOf s then
      acc.reverse :: splitCharsGo sep fuel (s.drop sep.length) []
    else
      match s with
      | [] => [acc.reverse]
      | c :: cs => splitCharsGo sep fuel cs (c :: acc)

/-- String splitting on a separator (String.splitOn of the JS and Lean
standard libraries, restated with structural recursion). -/
def strSplitOn (s sep : String) : List String :=
  (splitCharsGo sep.data (s.data.length + 1) s.data []).map fun l => String.mk l

/-- Whether s starts with pat. -/
def strStartsWith (s pat : String) : Bool := pat.data.isPrefixOf s.data

/-- Lowercasing (JS String.toLowerCase restricted to ASCII, which is all the
classifiers inspect). -/
def strToLower (s : String) : String :=
  String.mk (s.data.map fun c => if c.val ≥ 65 && c.val ≤ 90 then Char.ofNat (c.toNat + 32) else c)

/-- Digit-string parser (String.toNat?, restated with structural recursion). -/
def digitsToNat? (l : List Char) : Option Nat :=
  if l.isEmpty then none
  else
    l.foldl
      (fun acc c =>
        match acc with
        | none => none
        | some n => if c.isDigit then some (n * 10 + (c.toNat - 48)) else none)
      (some 0)

/-- Classifier for invalid-token errors (AuthProvider.ts lines 577-584). -/
def isLikelyAccessTokenInvalidError (message : String) : Bool :=
  let m := strToLower message
  strContains m "http status code 401" || strContains m "http status code 403" ||
    strContains m "http status code 404"

/-- Classifier for offline errors (AuthProvider.ts lines 586-589). -/
def isLikelyOfflineError (message : String) : Bool :=
  strContains (strToLower message) "failed to fetch"

/-- Modelled from the spec: isSourcegraphToken (chat/protocol, not under src)
recognises strings that are structurally Sourcegraph access tokens; such
tokens carry the sgp underscore magic marker. -/
def isSourcegraphToken (text : String) : Bool := strStartsWith text "sgp_"

/-- Modelled from the spec: the JS URL constructor (host runtime, not under
src). A string parses as an absolute URL iff it has a nonempty scheme, the
literal separator, and a nonempty remainder; href normalization appends a
trailing slash when the authority carries no path. -/
def parseURL (s : String) : Option String :=
  match strSplitOn s "://" with
  | [scheme, rest] =>
    if scheme = "" || rest = "" then none
    else some (scheme ++ "://" ++ rest ++ (if strContains rest "/" then "" else "/"))
  | _ => none

/-- Endpoint normalization (AuthProvider.ts lines 533-556): empty input and
token-shaped input yield null (the throw for a token-shaped input is caught
by the function's own catch); a missing scheme is defaulted to https. -/
def formatURL (uri : String) : Option String :=
  if uri = "" then none
  else if isSourcegraphToken uri then none
  else
    let uri2 := if strStartsWith uri "http" then uri else "https://" ++ uri
    parseURL uri2

/-- Modelled from the spec: semver validation used by the api-version
inference (implementation not under src). Accepts MAJOR.MINOR.PATCH with
numeric components. -/
def parseSemver (s : String) : Option (Nat × Nat × Nat) :=
  match strSplitOn s "." with
  | [a, b, c] =>
    match digitsToNat? a.data, digitsToNat? b.data, digitsToNat? c.data with
    | some x, some y, some z => some (x, y, z)
    | _, _, _ => none
  | _ => none

/-- Lexicographic strict order on parsed semver triples. -/
def semverLt (a b : Nat × Nat × Nat) : Bool :=
  a.1 < b.1 || (a.1 = b.1 && (a.2.1 < b.2.1 || (a.2.1 = b.2.1 && a.2.2 < b.2.2)))

/-- Modelled from the spec: inferCodyApiVersion (vscode chat utils, not under
src; only its unit tests are). Behaviour as pinned by utils.test.ts: the
dotcom endpoint always maps to the newest ordinal 1; a version string that
does not parse as semver (cloud and insider builds, or the empty string) also
maps to 1; parsed versions below the break point map to the legacy ordinal 0,
and the legacy-instance test pins 5.2.0 below the break point. The break
point itself is modelled as 5.3.0; only its lying above 5.2.0 is observable
in the repository. -/
def inferCodyApiVersion (version : String) (isDotComEndpoint : Bool) : Nat :=
  if isDotComEndpoint then 1
  else
    match parseSemver version with
    | none => 1
    | some v => if semverLt v (5, 3, 0) then 0 else 1

/-- Result of the current-user-info fetch: a structured error with a message,
a null user, or a user payload. -/
inductive UserInfoResult
  | err (message : String)
  | missing
  | ok (u : RawUserInfo)
deriving DecidableEq, Repr

/-- Whether the user-info fetch returned a structured error. -/
def UserInfoResult.isErr : UserInfoResult → Bool
  | .err _ => true
  | _ => false

/-- The user payload of a non-error user-info fetch, if any. -/
def UserInfoResult.value : UserInfoResult → Option RawUserInfo
  | .ok u => some u
  | _ => none

/-- The remote validator's three responses for one validation (AuthProvider.ts
lines 268-273); a none codyLLMConfiguration models the isError branch of
line 288. -/
structure ValidatorResponse where
  siteHasCodyEnabled : Bool
  siteVersion : String
  codyLLMConfiguration : Option CodyLLMSiteConfiguration
  userInfo : UserInfoResult
deriving DecidableEq, Repr

/-- The not-logged-in status makeAuthStatus returns without any validator
call when the token is null (AuthProvider.ts lines 242-253). -/
def makeAuthStatusNoToken (endpoint : String) : AuthStatus :=
  { endpoint
    isDotCom := isDotCom endpoint
    isLoggedIn := false
    showInvalidAccessTokenError := false
    ephemeralConnectivityStatus := .unknown
    user := none
    site := none }

/-- The status makeAuthStatus computes from the validator responses when a
token is present (AuthProvider.ts lines 276-309). -/
def makeAuthStatusValidated (endpoint : String) (r : ValidatorResponse) : AuthStatus :=
  match r.userInfo with
  | .err m =>
    { endpoint
      isDotCom := isDotCom endpoint
      isLoggedIn := false
      showInvalidAccessTokenError := isLikelyAccessTokenInvalidError m
      ephemeralConnectivityStatus := if isLikelyOfflineError m then .offline else .error
      user := none
      site := none }
  | u =>
    { endpoint
      isDotCom := isDotCom endpoint
      isLoggedIn := r.siteHasCodyEnabled && u.value.isSome
      showInvalidAccessTokenError := false
      ephemeralConnectivityStatus := .online
      user := u.value.map fun raw =>
        { username := raw.username
          displayName := raw.displayName
          avatarURL := raw.avatarURL
          primaryEmail := raw.primaryEmail.getD ""
          authenticated := true }
      site := some
        { siteVersion := r.siteVersion
          configOverwrites := r.codyLLMConfiguration
          siteHasCodyEnabled := r.siteHasCodyEnabled
          codyApiVersion := inferCodyApiVersion r.siteVersion (isDotCom endpoint) } }

/-- The status returned by the catch-all branch of auth for a non-abort
failure (AuthProvider.ts lines 377-386); it uses the raw endpoint argument,
not the normalized one. -/
def fallbackStatus (rawEndpoint : String) : AuthStatus :=
  { endpoint := rawEndpoint
    isDotCom := isDotCom rawEndpoint
    isLoggedIn := false
    showInvalidAccessTokenError := true
    ephemeralConnectivityStatus := .online
    user := none
    site := none }

/-- Helper of distinctUntilChanged carrying the previously emitted value. -/
def dUCgo (prev : AuthStatus) : List AuthStatus → List AuthStatus
  | [] => []
  | y :: ys => if y = prev then dUCgo prev ys else y :: dUCgo y ys

/-- Modelled from the spec: the distinctUntilChanged operator piped onto the
changes stream (shared observable helpers, not under src): drop every element
that is structurally equal to the previously emitted one. -/
def distinctUntilChanged : List AuthStatus → List AuthStatus
  | [] => []
  | x :: xs => x :: dUCgo x xs

/-- Outcome of one auth invocation: a returned AuthStatus, or the abort
error that auth deliberately rethrows (lines 371-374). -/
inductive AuthResult
  | ok (st : AuthStatus)
  | aborted
deriving DecidableEq, Repr

/-- Program counter of one auth invocation: the await boundaries of
AuthProvider.auth at which the cooperative scheduler may interleave other
work. The carried status is the value makeAuthStatus resolved to. -/
inductive PC
  | notStarted
  | started
  | validated (st : AuthStatus)
  | stored (st : AuthStatus)
  | contextSet (st : AuthStatus)
  | committed (st : AuthStatus)
  | notified (st : AuthStatus)
  | done (r : AuthResult)
deriving DecidableEq, Repr

/-- Scheduler events: one constructor per await boundary of auth, plus
invocation start and an external (caller-supplied parent signal) abort. -/
inductive Action
  | start (i : Nat)
  | validationDone (i : Nat)
  | storeDone (i : Nat)
  | contextDone (i : Nat)
  | commit (i : Nat)
  | notifyDone (i : Nat)
  | finish (i : Nat)
  | externalAbort (i : Nat)
deriving DecidableEq, Repr

/-- Static data of one auth invocation: its arguments and the validator's
responses to it. storeFails injects a credential-store I/O failure. -/
structure AuthArgs where
  endpoint : String
  token : Option String
  response : ValidatorResponse
  storeFails : Bool := false
deriving Repr

/-- The normalized server endpoint of the credentials object built at
AuthProvider.ts line 342: formatURL with the empty-string fallback. -/
def normalizedEndpoint (a : AuthArgs) : String := (formatURL a.endpoint).getD ""

/-- The status the validation phase of an invocation resolves to. -/
def mkValidatedStatus (a : AuthArgs) : AuthStatus :=
  match a.token with
  | none => makeAuthStatusNoToken (normalizedEndpoint a)
  | some _ => makeAuthStatusValidated (normalizedEndpoint a) a.response

/-- Shared state of the AuthProvider and its collaborators (credential store,
context flag), plus observation-only logs (lastStarted, networkCalls,
persistLog, commitLog, emissions) that record events so the claims can be
stated; the logs influence no transition. -/
structure MachineState where
  inflight : Option Nat
  lastStarted : Option Nat
  aborted : Nat → Bool
  pcs : Nat → PC
  status : Option AuthStatus
  savedEndpoint : Option String
  credTokens : String → Option String
  contextActivated : Bool
  networkCalls : List Nat
  persistLog : List Nat
  commitLog : List (Nat × Option Nat)
  emissions : List (Nat × AuthStatus)

/-- Pointwise update of a program-counter table. -/
def setPC (f : Nat → PC) (i : Nat) (v : PC) : Nat → PC :=
  fun j => if j = i then v else f j

/-- Mark one abort flag; flags are never unset (AbortController.abort is
irreversible). -/
def setFlag (f : Nat → Bool) (i : Nat) : Nat → Bool :=
  fun j => if j = i then true else f j

/-- The finally clause of auth (lines 387-391): the inflight slot is cleared
only by its current owner. -/
def clearInflight (s : MachineState) (i : Nat) : MachineState :=
  if s.inflight = some i then { s with inflight := none } else s

/-- Terminate invocation i with result r, running the finally clause. -/
def finishWith (s : MachineState) (i : Nat) (r : AuthResult) : MachineState :=
  clearInflight { s with pcs := setPC s.pcs i (.done r) } i

/-- One scheduler step. Each resume action performs the synchronous segment
of auth between two await boundaries: the throwIfAborted check guarding the
segment, then the segment's effects, which are atomic because no other task
runs between them. A disabled action (wrong program counter) leaves the
state unchanged. -/
def stepFn (args : Nat → AuthArgs) (s : MachineState) (a : Action) : MachineState :=
  match a with
  | .externalAbort i => { s with aborted := setFlag s.aborted i }
  | .start i =>
    if s.pcs i = .notStarted then
      let s1 :=
        match s.inflight with
        | some j => { s with aborted := setFlag s.aborted j }
        | none => s
      { s1 with
        inflight := some i
        lastStarted := some i
        pcs := setPC s1.pcs i .started
        networkCalls :=
          if (args i).token.isSome then s1.networkCalls ++ [i] else s1.networkCalls }
    else s
  | .validationDone i =>
    if s.pcs i = .started then
      if s.aborted i then finishWith s i .aborted
      else { s with pcs := setPC s.pcs i (.validated (mkValidatedStatus (args i))) }
    else s
  | .storeDone i =>
    match s.pcs i with
    | .validated st =>
      if s.aborted i then finishWith s i .aborted
      else
        let ep := normalizedEndpoint (args i)
        if ep = "" then { s with pcs := setPC s.pcs i (.stored st) }
        else if (args i).storeFails then finishWith s i (.ok (fallbackStatus (args i).endpoint))
        else
          { s with
            savedEndpoint := some ep
            credTokens :=
              match (args i).token with
              | some t => fun e => if e = ep then some t else s.credTokens e
              | none => s.credTokens
            persistLog := s.persistLog ++ [i]
            pcs := setPC s.pcs i (.stored st) }
    | _ => s
  | .contextDone i =>
    match s.pcs i with
    | .stored st =>
      if s.aborted i then finishWith s i .aborted
      else { s with contextActivated := st.isLoggedIn, pcs := setPC s.pcs i (.contextSet st) }
    | _ => s
  | .commit i =>
    match s.pcs i with
    | .contextSet st =>
      if s.aborted i then finishWith s i .aborted
      else
        { s with
          status := some st
          commitLog := s.commitLog ++ [(i, s.lastStarted)]
          pcs := setPC s.pcs i (.committed st) }
    | _ => s
  | .notifyDone i =>
    match s.pcs i with
    | .committed st =>
      if s.aborted i then { s with pcs := setPC s.pcs i (.notified st) }
      else
        match s.status with
        | some cur =>
          { s with
            emissions := s.emissions ++ [(i, cur)]
            pcs := setPC s.pcs i (.notified st) }
        | none => { s with pcs := setPC s.pcs i (.notified st) }
    | _ => s
  | .finish i =>
    match s.pcs i with
    | .notified st =>
      if s.aborted i then finishWith s i .aborted
      else finishWith s i (.ok st)
    | _ => s

/-- Run a scheduler trace. -/
def run (args : Nat → AuthArgs) (s : MachineState) (tr : List Action) : MachineState :=
  tr.foldl (stepFn args) s

/-- The logged-out placeholder installed by the constructor (lines 56-64). -/
def initialStatus (lastEndpoint : String) : AuthStatus :=
  { endpoint := lastEndpoint
    isDotCom := isDotCom lastEndpoint
    isLoggedIn := false
    showInvalidAccessTokenError := false
    ephemeralConnectivityStatus := .unknown
    user := none
    site := none }

/-- The state right after the AuthProvider constructor returns; the last-used
endpoint from client state defaults to the dotcom URL (line 54). -/
def initState (lastUsedEndpoint : Option String) : MachineState :=
  { inflight := none
    lastStarted := none
    aborted := fun _ => false
    pcs := fun _ => .notStarted
    status := some (initialStatus (lastUsedEndpoint.getD DOTCOM_URL))
    savedEndpoint := none
    credTokens := fun _ => none
    contextActivated := false
    networkCalls := []
    persistLog := []
    commitLog := []
    emissions := [] }

/-- getAuthStatus (lines 312-317); the not-ready branch throws. -/
def getAuthStatus (s : MachineState) : Except String AuthStatus :=
  match s.status with
  | some st => .ok st
  | none => .error "AuthStatus is not ready"

/-- The statuses fired on the change event, in order. -/
def firedStatuses (s : MachineState) : List AuthStatus := s.emissions.map Prod.snd

/-- The changes observable (lines 107-110): the initial snapshot followed by
the fired statuses, de-duplicated by structural equality. -/
def changes (lastUsedEndpoint : Option String) (args : Nat → AuthArgs) (tr : List Action) :
    List AuthStatus :=
  distinctUntilChanged
    (initialStatus (lastUsedEndpoint.getD DOTCOM_URL) ::
      firedStatuses (run args (initState lastUsedEndpoint) tr))

/-- Whether an invocation is mid-flight (has started and not yet finished). -/
def PC.isActive : PC → Bool
  | .notStarted => false
  | .done _ => false
  | _ => true

/-- Program counters at which an invocation has not yet committed a status. -/
def PC.preCommit : PC → Bool
  | .notStarted | .started | .validated _ | .stored _ | .contextSet _ => true
  | _ => false

/-- Program counters at which an invocation has not yet reached its
persistence step. -/
def PC.preStore : PC → Bool
  | .notStarted | .started | .validated _ => true
  | _ => false

/-- Every status the program counter carries or returns satisfies P. -/
def PC.resultsP (P : AuthStatus → Prop) : PC → Prop
  | .notStarted | .started => True
  | .validated st | .stored st | .contextSet st | .committed st | .notified st => P st
  | .done (.ok st) => P st
  | .done .aborted => True

def argsSolo : Nat → AuthArgs := fun _ =>
  { endpoint := "a.example"
    token := some "tokA"
    response :=
      { siteHasCodyEnabled := true
        siteVersion := "5.4.0"
        codyLLMConfiguration := none
        userInfo := .ok { username := "u", displayName := "d", avatarURL := "", primaryEmail := none } } }

def soloTrace : List Action :=
  [.start 0, .validationDone 0, .storeDone 0, .contextDone 0, .commit 0, .notifyDone 0, .finish 0]

/-- A successful validator response used by concrete schedules. -/
def rOk : ValidatorResponse :=
  { siteHasCodyEnabled := true
    siteVersion := "5.4.0"
    codyLLMConfiguration := none
    userInfo := .ok { username := "u", displayName := "d", avatarURL := "", primaryEmail := none } }

/-- An erroring validator response (invalid-token shaped message). -/
def rErr : ValidatorResponse :=
  { siteHasCodyEnabled := false
    siteVersion := ""
    codyLLMConfiguration := none
    userInfo := .err "HTTP status code 401" }

/-- Two overlapping invocations with distinct endpoints and tokens. -/
def argsAB : Nat → AuthArgs := fun i =>
  if i = 0 then { endpoint := "a.example", token := some "tokA", response := rOk }
  else { endpoint := "b.example", token := some "tokB", response := rOk }

/-- Invocation 0 validates and persists, then is superseded by invocation 1
before it can commit. -/
def trSupersede : List Action := [.start 0, .validationDone 0, .storeDone 0, .start 1]

/-- Completion of trSupersede: invocation 0 resumes and exits with the abort
error; invocation 1 runs to the end. -/
def trSupersedeFull : List Action :=
  trSupersede ++
    [.contextDone 0, .validationDone 1, .storeDone 1, .contextDone 1, .commit 1,
      .notifyDone 1, .finish 1]

/-- A token-shaped endpoint (fails URL normalization) with a real token. -/
def argsTokenEndpoint : Nat → AuthArgs := fun _ =>
  { endpoint := "sgp_c0ffee0123456789c0ffee0123456789c0ffee01"
    token := some "sgp_aaaabbbb"
    response := rOk }

/-- A token-shaped endpoint with a null token. -/
def argsTokenEndpointNoTok : Nat → AuthArgs := fun _ =>
  { endpoint := "sgp_c0ffee0123456789c0ffee0123456789c0ffee01"
    token := none
    response := rOk }

/-- A null-token invocation against a well-formed endpoint. -/
def argsNoToken : Nat → AuthArgs := fun _ =>
  { endpoint := "a.example", token := none, response := rOk }

/-- A token-bearing invocation whose validation reports Cody disabled, so
the resulting status is not logged in. -/
def argsDisabled : Nat → AuthArgs := fun _ =>
  { endpoint := "a.example"
    token := some "tokA"
    response := { rOk with siteHasCodyEnabled := false } }

/-- Invocations 0 and 1 with identical inputs and identical validator
responses, run to completion one after the other. -/
def trTwice : List Action :=
  soloTrace ++
    [.start 1, .validationDone 1, .storeDone 1, .contextDone 1, .commit 1,
      .notifyDone 1, .finish 1]

theorem setPC_self (f : Nat → PC) (i : Nat) (v : PC) : setPC f i v i = v := by
  simp [setPC]

theorem setPC_other (f : Nat → PC) (i : Nat) (v : PC) (j : Nat) (h : j ≠ i) :
    setPC f i v j = f j := by
  simp [setPC, h]

theorem setFlag_self (f : Nat → Bool) (i : Nat) : setFlag f i i = true := by
  simp [setFlag]

theorem setFlag_mono (f : Nat → Bool) (i j : Nat) (h : f j = true) : setFlag f i j = true := by
  by_cases hji : j = i <;> simp [setFlag, hji, h]

theorem setFlag_false (f : Nat → Bool) (i j : Nat) (h : setFlag f i j = false) :
    f j = false ∧ j ≠ i := by
  by_cases hji : j = i
  · simp [setFlag, hji] at h
  · simp [setFlag, hji] at h
    simp [h, hji]

/-- The inductive invariant of the machine: the cancellation and inflight-slot
discipline plus observation-log bookkeeping facts that the claims rest on. -/
structure Inv (args : Nat → AuthArgs) (s : MachineState) : Prop where
  statusSome : s.status.isSome = true
  activeInflight : ∀ i, (s.pcs i).isActive = true → s.aborted i = false → s.inflight = some i
  inflightLast : ∀ i, s.inflight = some i → s.lastStarted = some i
  commitLast : ∀ e ∈ s.commitLog, e.2 = some e.1
  commitZero : ∀ i, (s.pcs i).preCommit = true → s.commitLog.countP (fun e => e.1 == i) = 0
  emitZero : ∀ i, (s.pcs i).preCommit = true → s.emissions.countP (fun e => e.1 == i) = 0
  persistZero : ∀ i, (s.pcs i).preStore = true → s.persistLog.countP (fun j => j == i) = 0
  persistEp : ∀ i ∈ s.persistLog, normalizedEndpoint (args i) ≠ ""
  tokenNone : ∀ i, (args i).token = none →
    s.networkCalls.countP (fun j => j == i) = 0 ∧
      (s.pcs i).resultsP fun st => st.isLoggedIn = false ∧ st.user = none ∧ st.site = none
  doneAborted : ∀ i, s.pcs i = .done .aborted → s.aborted i = true

theorem inv_initState (args : Nat → AuthArgs) (l : Option String) : Inv args (initState l) := by
  constructor
  all_goals simp [initState, PC.isActive, PC.preCommit, PC.preStore, PC.resultsP]

theorem countP_append_one {α : Type} (l : List α) (x : α) (p : α → Bool) :
    (l ++ [x]).countP p = l.countP p + (if p x then 1 else 0) := by
  simp [List.countP_append, List.countP_cons]

theorem finishWith_eq (s : MachineState) (i : Nat) (r : AuthResult) :
    finishWith s i r =
      { s with
        pcs := setPC s.pcs i (.done r)
        inflight := if s.inflight = some i then none else s.inflight } := by
  simp only [finishWith, clearInflight]
  split
  all_goals simp [*]

theorem finishWith_pcs (s : MachineState) (i : Nat) (r : AuthResult) :
    (finishWith s i r).pcs = setPC s.pcs i (.done r) := by
  rw [finishWith_eq]

theorem finishWith_aborted (s : MachineState) (i : Nat) (r : AuthResult) :
    (finishWith s i r).aborted = s.aborted := by
  rw [finishWith_eq]

theorem finishWith_inflight (s : MachineState) (i : Nat) (r : AuthResult) :
    (finishWith s i r).inflight = if s.inflight = some i then none else s.inflight := by
  rw [finishWith_eq]

theorem finishWith_status (s : MachineState) (i : Nat) (r : AuthResult) :
    (finishWith s i r).status = s.status := by
  rw [finishWith_eq]

theorem finishWith_lastStarted (s : MachineState) (i : Nat) (r : AuthResult) :
    (finishWith s i r).lastStarted = s.lastStarted := by
  rw [finishWith_eq]

theorem finishWith_commitLog (s : MachineState) (i : Nat) (r : AuthResult) :
    (finishWith s i r).commitLog = s.commitLog := by
  rw [finishWith_eq]

theorem finishWith_emissions (s : MachineState) (i : Nat) (r : AuthResult) :
    (finishWith s i r).emissions = s.emissions := by
  rw [finishWith_eq]

theorem finishWith_persistLog (s : MachineState) (i : Nat) (r : AuthResult) :
    (finishWith s i r).persistLog = s.persistLog := by
  rw [finishWith_eq]

theorem finishWith_networkCalls (s : MachineState) (i : Nat) (r : AuthResult) :
    (finishWith s i r).networkCalls = s.networkCalls := by
  rw [finishWith_eq]

theorem finishWith_credTokens (s : MachineState) (i : Nat) (r : AuthResult) :
    (finishWith s i r).credTokens = s.credTokens := by
  rw [finishWith_eq]

theorem finishWith_savedEndpoint (s : MachineState) (i : Nat) (r : AuthResult) :
    (finishWith s i r).savedEndpoint = s.savedEndpoint := by
  rw [finishWith_eq]

theorem inv_finishWith {args : Nat → AuthArgs} {s : MachineState} {i : Nat} {r : AuthResult}
    (h : Inv args s)
    (habort : r = .aborted → s.aborted i = true)
    (hok : ∀ st, r = .ok st → (args i).token = none →
      st.isLoggedIn = false ∧ st.user = none ∧ st.site = none) :
    Inv args (finishWith s i r) := by
  constructor
  all_goals simp only [finishWith_pcs, finishWith_aborted, finishWith_inflight, finishWith_status,
    finishWith_lastStarted, finishWith_commitLog, finishWith_emissions, finishWith_persistLog,
    finishWith_networkCalls]
  case statusSome => exact h.statusSome
  case activeInflight =>
    intro k hact hab
    by_cases hk : k = i
    · subst hk
      rw [setPC_self] at hact
      simp [PC.isActive] at hact
    · rw [setPC_other _ _ _ _ hk] at hact
      have hin := h.activeInflight k hact hab
      simp [hin, hk]
  case inflightLast =>
    intro k hk
    split at hk
    · exact absurd hk (by simp)
    · exact h.inflightLast k hk
  case commitLast => exact h.commitLast
  case commitZero =>
    intro k hk
    by_cases hki : k = i
    · subst hki
      rw [setPC_self] at hk
      simp [PC.preCommit] at hk
    · rw [setPC_other _ _ _ _ hki] at hk
      exact h.commitZero k hk
  case emitZero =>
    intro k hk
    by_cases hki : k = i
    · subst hki
      rw [setPC_self] at hk
      simp [PC.preCommit] at hk
    · rw [setPC_other _ _ _ _ hki] at hk
      exact h.emitZero k hk
  case persistZero =>
    intro k hk
    by_cases hki : k = i
    · subst hki
      rw [setPC_self] at hk
      simp [PC.preStore] at hk
    · rw [setPC_other _ _ _ _ hki] at hk
      exact h.persistZero k hk
  case persistEp => exact h.persistEp
  case tokenNone =>
    intro k hk
    refine ⟨(h.tokenNone k hk).1, ?_⟩
    by_cases hki : k = i
    · subst hki
      rw [setPC_self]
      cases r with
      | aborted => simp [PC.resultsP]
      | ok st => simpa [PC.resultsP] using hok st rfl hk
    · rw [setPC_other _ _ _ _ hki]
      exact (h.tokenNone k hk).2
  case doneAborted =>
    intro k hk
    by_cases hki : k = i
    · subst hki
      rw [setPC_self] at hk
      have : r = .aborted := by
        cases r with
        | aborted => rfl
        | ok st => simp at hk
      exact habort this
    · rw [setPC_other _ _ _ _ hki] at hk
      exact h.doneAborted k hk

theorem countP_append_ne (l : List Nat) (x k : Nat) (h : x ≠ k) :
    (l ++ [x]).countP (fun j => j == k) = l.countP (fun j => j == k) := by
  have hx : (x == k) = false := by simp [h]
  simp [countP_append_one, hx]

theorem countP_append_fst_ne (l : List (Nat × Option Nat)) (x : Nat × Option Nat) (k : Nat)
    (h : x.1 ≠ k) :
    (l ++ [x]).countP (fun e => e.1 == k) = l.countP (fun e => e.1 == k) := by
  have hx : (x.1 == k) = false := by simp [h]
  simp [countP_append_one, hx]

theorem countP_append_emit_ne (l : List (Nat × AuthStatus)) (x : Nat × AuthStatus) (k : Nat)
    (h : x.1 ≠ k) :
    (l ++ [x]).countP (fun e => e.1 == k) = l.countP (fun e => e.1 == k) := by
  have hx : (x.1 == k) = false := by simp [h]
  simp [countP_append_one, hx]

theorem inv_step_start (args : Nat → AuthArgs) (s : MachineState) (i : Nat) (h : Inv args s) :
    Inv args (stepFn args s (.start i)) := by
  simp only [stepFn]
  split
  case isFalse => exact h
  case isTrue hpc =>
    cases hinf : s.inflight with
    | none =>
      simp only [hinf]
      constructor
      all_goals dsimp only
      case statusSome => exact h.statusSome
      case activeInflight =>
        intro k hact hab
        by_cases hk : k = i
        · subst hk
          rfl
        · rw [show ({ s with aborted := s.aborted } : MachineState).pcs = s.pcs from rfl] at hact
          rw [setPC_other _ _ _ _ hk] at hact
          have := h.activeInflight k hact hab
          rw [hinf] at this
          exact absurd this (by simp)
      case inflightLast =>
        intro k hk
        exact hk
      case commitLast => exact h.commitLast
      case commitZero =>
        intro k hk
        by_cases hki : k = i
        · subst hki
          exact h.commitZero k (by simp [hpc, PC.preCommit])
        · rw [setPC_other _ _ _ _ hki] at hk
          exact h.commitZero k hk
      case emitZero =>
        intro k hk
        by_cases hki : k = i
        · subst hki
          exact h.emitZero k (by simp [hpc, PC.preCommit])
        · rw [setPC_other _ _ _ _ hki] at hk
          exact h.emitZero k hk
      case persistZero =>
        intro k hk
        by_cases hki : k = i
        · subst hki
          exact h.persistZero k (by simp [hpc, PC.preStore])
        · rw [setPC_other _ _ _ _ hki] at hk
          exact h.persistZero k hk
      case persistEp => exact h.persistEp
      case tokenNone =>
        intro k hk
        constructor
        · by_cases hki : k = i
          · subst hki
            simp only [hk, Option.isSome_none, Bool.false_eq_true, if_false]
            exact (h.tokenNone k hk).1
          · cases htok : (args i).token with
            | none =>
              simp only [htok, Option.isSome_none, Bool.false_eq_true, if_false]
              exact (h.tokenNone k hk).1
            | some t =>
              simp only [htok, Option.isSome_some, if_true]
              rw [countP_append_ne _ _ _ (fun hik => hki (hik.symm))]
              exact (h.tokenNone k hk).1
        · by_cases hki : k = i
          · subst hki
            rw [setPC_self]
            simp [PC.resultsP]
          · rw [setPC_other _ _ _ _ hki]
            exact (h.tokenNone k hk).2
      case doneAborted =>
        intro k hk
        by_cases hki : k = i
        · subst hki
          rw [setPC_self] at hk
          exact absurd hk (by simp)
        · rw [setPC_other _ _ _ _ hki] at hk
          exact h.doneAborted k hk
    | some j =>
      simp only [hinf]
      constructor
      all_goals dsimp only
      case statusSome => exact h.statusSome
      case activeInflight =>
        intro k hact hab
        by_cases hk : k = i
        · subst hk
          rfl
        · rw [setPC_other _ _ _ _ hk] at hact
          obtain ⟨hab', hkj⟩ := setFlag_false _ _ _ hab
          have := h.activeInflight k hact hab'
          rw [hinf] at this
          exact absurd (Option.some.inj this).symm hkj
      case inflightLast =>
        intro k hk
        exact hk
      case commitLast => exact h.commitLast
      case commitZero =>
        intro k hk
        by_cases hki : k = i
        · subst hki
          exact h.commitZero k (by simp [hpc, PC.preCommit])
        · rw [setPC_other _ _ _ _ hki] at hk
          exact h.commitZero k hk
      case emitZero =>
        intro k hk
        by_cases hki : k = i
        · subst hki
          exact h.emitZero k (by simp [hpc, PC.preCommit])
        · rw [setPC_other _ _ _ _ hki] at hk
          exact h.emitZero k hk
      case persistZero =>
        intro k hk
        by_cases hki : k = i
        · subst hki
          exact h.persistZero k (by simp [hpc, PC.preStore])
        · rw [setPC_other _ _ _ _ hki] at hk
          exact h.persistZero k hk
      case persistEp => exact h.persistEp
      case tokenNone =>
        intro k hk
        constructor
        · by_cases hki : k = i
          · subst hki
            simp only [hk, Option.isSome_none, Bool.false_eq_true, if_false]
            exact (h.tokenNone k hk).1
          · cases htok : (args i).token with
            | none =>
              simp only [htok, Option.isSome_none, Bool.false_eq_true, if_false]
              exact (h.tokenNone k hk).1
            | some t =>
              simp only [htok, Option.isSome_some, if_true]
              rw [countP_append_ne _ _ _ (fun hik => hki (hik.symm))]
              exact (h.tokenNone k hk).1
        · by_cases hki : k = i
          · subst hki
            rw [setPC_self]
            simp [PC.resultsP]
          · rw [setPC_other _ _ _ _ hki]
            exact (h.tokenNone k hk).2
      case doneAborted =>
        intro k hk
        by_cases hki : k = i
        · subst hki
          rw [setPC_self] at hk
          exact absurd hk (by simp)
        · rw [setPC_other _ _ _ _ hki] at hk
          exact setFlag_mono _ _ _ (h.doneAborted k hk)

theorem inv_step_externalAbort (args : Nat → AuthArgs) (s : MachineState) (i : Nat)
    (h : Inv args s) : Inv args (stepFn args s (.externalAbort i)) := by
  simp only [stepFn]
  constructor
  all_goals dsimp only
  case statusSome => exact h.statusSome
  case activeInflight =>
    intro k hact hab
    exact h.activeInflight k hact (setFlag_false _ _ _ hab).1
  case inflightLast => exact h.inflightLast
  case commitLast => exact h.commitLast
  case commitZero => exact h.commitZero
  case emitZero => exact h.emitZero
  case persistZero => exact h.persistZero
  case persistEp => exact h.persistEp
  case tokenNone => exact h.tokenNone
  case doneAborted =>
    intro k hk
    exact setFlag_mono _ _ _ (h.doneAborted k hk)

theorem inv_step_validationDone (args : Nat → AuthArgs) (s : MachineState) (i : Nat)
    (h : Inv args s) : Inv args (stepFn args s (.validationDone i)) := by
  simp only [stepFn]
  split
  · rename_i hpc
    split
    · rename_i habt
      exact inv_finishWith h (fun _ => habt) (fun st hst _ => absurd hst (by simp))
    · rename_i habt
      simp only [Bool.not_eq_true] at habt
      constructor
      all_goals dsimp only
      case statusSome => exact h.statusSome
      case activeInflight =>
        intro k hact hab
        by_cases hki : k = i
        · subst hki
          exact h.activeInflight k (by simp [hpc, PC.isActive]) hab
        · rw [setPC_other _ _ _ _ hki] at hact
          exact h.activeInflight k hact hab
      case inflightLast => exact h.inflightLast
      case commitLast => exact h.commitLast
      case commitZero =>
        intro k hk
        by_cases hki : k = i
        · subst hki
          exact h.commitZero k (by simp [hpc, PC.preCommit])
        · rw [setPC_other _ _ _ _ hki] at hk
          exact h.commitZero k hk
      case emitZero =>
        intro k hk
        by_cases hki : k = i
        · subst hki
          exact h.emitZero k (by simp [hpc, PC.preCommit])
        · rw [setPC_other _ _ _ _ hki] at hk
          exact h.emitZero k hk
      case persistZero =>
        intro k hk
        by_cases hki : k = i
        · subst hki
          exact h.persistZero k (by simp [hpc, PC.preStore])
        · rw [setPC_other _ _ _ _ hki] at hk
          exact h.persistZero k hk
      case persistEp => exact h.persistEp
      case tokenNone =>
        intro k hk
        refine ⟨(h.tokenNone k hk).1, ?_⟩
        by_cases hki : k = i
        · subst hki
          rw [setPC_self]
          simp [PC.resultsP, mkValidatedStatus, hk, makeAuthStatusNoToken]
        · rw [setPC_other _ _ _ _ hki]
          exact (h.tokenNone k hk).2
      case doneAborted =>
        intro k hk
        by_cases hki : k = i
        · subst hki
          rw [setPC_self] at hk
          exact absurd hk (by simp)
        · rw [setPC_other _ _ _ _ hki] at hk
          exact h.doneAborted k hk
  · exact h

theorem inv_step_storeDone (args : Nat → AuthArgs) (s : MachineState) (i : Nat)
    (h : Inv args s) : Inv args (stepFn args s (.storeDone i)) := by
  simp only [stepFn]
  split
  · rename_i st hpc
    split
    · rename_i habt
      exact inv_finishWith h (fun _ => habt) (fun st' hst' _ => absurd hst' (by simp))
    · rename_i habt
      simp only [Bool.not_eq_true] at habt
      split
      · rename_i hep
        constructor
        all_goals dsimp only
        case statusSome => exact h.statusSome
        case activeInflight =>
          intro k hact hab
          by_cases hki : k = i
          · subst hki
            exact h.activeInflight k (by simp [hpc, PC.isActive]) hab
          · rw [setPC_other _ _ _ _ hki] at hact
            exact h.activeInflight k hact hab
        case inflightLast => exact h.inflightLast
        case commitLast => exact h.commitLast
        case commitZero =>
          intro k hk
          by_cases hki : k = i
          · subst hki
            exact h.commitZero k (by simp [hpc, PC.preCommit])
          · rw [setPC_other _ _ _ _ hki] at hk
            exact h.commitZero k hk
        case emitZero =>
          intro k hk
          by_cases hki : k = i
          · subst hki
            exact h.emitZero k (by simp [hpc, PC.preCommit])
          · rw [setPC_other _ _ _ _ hki] at hk
            exact h.emitZero k hk
        case persistZero =>
          intro k hk
          by_cases hki : k = i
          · subst hki
            rw [setPC_self] at hk
            simp [PC.preStore] at hk
          · rw [setPC_other _ _ _ _ hki] at hk
            exact h.persistZero k hk
        case persistEp => exact h.persistEp
        case tokenNone =>
          intro k hk
          refine ⟨(h.tokenNone k hk).1, ?_⟩
          by_cases hki : k = i
          · subst hki
            rw [setPC_self]
            have := (h.tokenNone k hk).2
            rw [hpc] at this
            simpa [PC.resultsP] using this
          · rw [setPC_other _ _ _ _ hki]
            exact (h.tokenNone k hk).2
        case doneAborted =>
          intro k hk
          by_cases hki : k = i
          · subst hki
            rw [setPC_self] at hk
            exact absurd hk (by simp)
          · rw [setPC_other _ _ _ _ hki] at hk
            exact h.doneAborted k hk
      · rename_i hep
        split
        · rename_i hsf
          refine inv_finishWith h (fun hr => absurd hr (by simp)) ?_
          intro st' hst' htok
          injection hst' with h1
          rw [← h1]
          simp [fallbackStatus]
        · rename_i hsf
          constructor
          all_goals dsimp only
          case statusSome => exact h.statusSome
          case activeInflight =>
            intro k hact hab
            by_cases hki : k = i
            · subst hki
              exact h.activeInflight k (by simp [hpc, PC.isActive]) hab
            · rw [setPC_other _ _ _ _ hki] at hact
              exact h.activeInflight k hact hab
          case inflightLast => exact h.inflightLast
          case commitLast => exact h.commitLast
          case commitZero =>
            intro k hk
            by_cases hki : k = i
            · subst hki
              exact h.commitZero k (by simp [hpc, PC.preCommit])
            · rw [setPC_other _ _ _ _ hki] at hk
              exact h.commitZero k hk
          case emitZero =>
            intro k hk
            by_cases hki : k = i
            · subst hki
              exact h.emitZero k (by simp [hpc, PC.preCommit])
            · rw [setPC_other _ _ _ _ hki] at hk
              exact h.emitZero k hk
          case persistZero =>
            intro k hk
            by_cases hki : k = i
            · subst hki
              rw [setPC_self] at hk
              simp [PC.preStore] at hk
            · rw [setPC_other _ _ _ _ hki] at hk
              rw [countP_append_ne _ _ _ (fun hik => hki (hik.symm))]
              exact h.persistZero k hk
          case persistEp =>
            intro x hx
            rw [List.mem_append] at hx
            cases hx with
            | inl hx => exact h.persistEp x hx
            | inr hx =>
              rw [List.mem_singleton] at hx
              subst hx
              exact hep
          case tokenNone =>
            intro k hk
            refine ⟨(h.tokenNone k hk).1, ?_⟩
            by_cases hki : k = i
            · subst hki
              rw [setPC_self]
              have := (h.tokenNone k hk).2
              rw [hpc] at this
              simpa [PC.resultsP] using this
            · rw [setPC_other _ _ _ _ hki]
              exact (h.tokenNone k hk).2
          case doneAborted =>
            intro k hk
            by_cases hki : k = i
            · subst hki
              rw [setPC_self] at hk
              exact absurd hk (by simp)
            · rw [setPC_other _ _ _ _ hki] at hk
              exact h.doneAborted k hk
  · exact h

theorem inv_step_contextDone (args : Nat → AuthArgs) (s : MachineState) (i : Nat)
    (h : Inv args s) : Inv args (stepFn args s (.contextDone i)) := by
  simp only [stepFn]
  split
  · rename_i st hpc
    split
    · rename_i habt
      exact inv_finishWith h (fun _ => habt) (fun st' hst' _ => absurd hst' (by simp))
    · rename_i habt
      simp only [Bool.not_eq_true] at habt
      constructor
      all_goals dsimp only
      case statusSome => exact h.statusSome
      case activeInflight =>
        intro k hact hab
        by_cases hki : k = i
        · subst hki
          exact h.activeInflight k (by simp [hpc, PC.isActive]) hab
        · rw [setPC_other _ _ _ _ hki] at hact
          exact h.activeInflight k hact hab
      case inflightLast => exact h.inflightLast
      case commitLast => exact h.commitLast
      case commitZero =>
        intro k hk
        by_cases hki : k = i
        · subst hki
          exact h.commitZero k (by simp [hpc, PC.preCommit])
        · rw [setPC_other _ _ _ _ hki] at hk
          exact h.commitZero k hk
      case emitZero =>
        intro k hk
        by_cases hki : k = i
        · subst hki
          exact h.emitZero k (by simp [hpc, PC.preCommit])
        · rw [setPC_other _ _ _ _ hki] at hk
          exact h.emitZero k hk
      case persistZero =>
        intro k hk
        by_cases hki : k = i
        · subst hki
          rw [setPC_self] at hk
          simp [PC.preStore] at hk
        · rw [setPC_other _ _ _ _ hki] at hk
          exact h.persistZero k hk
      case persistEp => exact h.persistEp
      case tokenNone =>
        intro k hk
        refine ⟨(h.tokenNone k hk).1, ?_⟩
        by_cases hki : k = i
        · subst hki
          rw [setPC_self]
          have := (h.tokenNone k hk).2
          rw [hpc] at this
          simpa [PC.resultsP] using this
        · rw [setPC_other _ _ _ _ hki]
          exact (h.tokenNone k hk).2
      case doneAborted =>
        intro k hk
        by_cases hki : k = i
        · subst hki
          rw [setPC_self] at hk
          exact absurd hk (by simp)
        · rw [setPC_other _ _ _ _ hki] at hk
          exact h.doneAborted k hk
  · exact h

theorem inv_step_commit (args : Nat → AuthArgs) (s : MachineState) (i : Nat)
    (h : Inv args s) : Inv args (stepFn args s (.commit i)) := by
  simp only [stepFn]
  split
  · rename_i st hpc
    split
    · rename_i habt
      exact inv_finishWith h (fun _ => habt) (fun st' hst' _ => absurd hst' (by simp))
    · rename_i habt
      simp only [Bool.not_eq_true] at habt
      have hlast : s.lastStarted = some i :=
        h.inflightLast i (h.activeInflight i (by simp [hpc, PC.isActive]) habt)
      constructor
      all_goals dsimp only
      case statusSome => rfl
      case activeInflight =>
        intro k hact hab
        by_cases hki : k = i
        · subst hki
          exact h.activeInflight k (by simp [hpc, PC.isActive]) hab
        · rw [setPC_other _ _ _ _ hki] at hact
          exact h.activeInflight k hact hab
      case inflightLast => exact h.inflightLast
      case commitLast =>
        intro e he
        rw [List.mem_append] at he
        cases he with
        | inl he => exact h.commitLast e he
        | inr he =>
          rw [List.mem_singleton] at he
          subst he
          exact hlast
      case commitZero =>
        intro k hk
        by_cases hki : k = i
        · subst hki
          rw [setPC_self] at hk
          simp [PC.preCommit] at hk
        · rw [setPC_other _ _ _ _ hki] at hk
          rw [countP_append_fst_ne _ _ _ (fun hik => hki (hik.symm))]
          exact h.commitZero k hk
      case emitZero =>
        intro k hk
        by_cases hki : k = i
        · subst hki
          rw [setPC_self] at hk
          simp [PC.preCommit] at hk
        · rw [setPC_other _ _ _ _ hki] at hk
          exact h.emitZero k hk
      case persistZero =>
        intro k hk
        by_cases hki : k = i
        · subst hki
          rw [setPC_self] at hk
          simp [PC.preStore] at hk
        · rw [setPC_other _ _ _ _ hki] at hk
          exact h.persistZero k hk
      case persistEp => exact h.persistEp
      case tokenNone =>
        intro k hk
        refine ⟨(h.tokenNone k hk).1, ?_⟩
        by_cases hki : k = i
        · subst hki
          rw [setPC_self]
          have := (h.tokenNone k hk).2
          rw [hpc] at this
          simpa [PC.resultsP] using this
        · rw [setPC_other _ _ _ _ hki]
          exact (h.tokenNone k hk).2
      case doneAborted =>
        intro k hk
        by_cases hki : k = i
        · subst hki
          rw [setPC_self] at hk
          exact absurd hk (by simp)
        · rw [setPC_other _ _ _ _ hki] at hk
          exact h.doneAborted k hk
  · exact h

theorem inv_step_notifyDone (args : Nat → AuthArgs) (s : MachineState) (i : Nat)
    (h : Inv args s) : Inv args (stepFn args s (.notifyDone i)) := by
  simp only [stepFn]
  split
  · rename_i st hpc
    have carryP :
        ∀ P : AuthStatus → Prop, (s.pcs i).resultsP P → P st := by
      intro P hP
      rw [hpc] at hP
      exact hP
    have stepPC :
        ∀ s' : MachineState, s'.pcs = setPC s.pcs i (.notified st) → s'.aborted = s.aborted →
          s'.inflight = s.inflight → s'.lastStarted = s.lastStarted → s'.status = s.status →
          s'.commitLog = s.commitLog → s'.persistLog = s.persistLog →
          s'.networkCalls = s.networkCalls →
          (∀ k, k ≠ i → s'.emissions.countP (fun e => e.1 == k) =
            s.emissions.countP (fun e => e.1 == k)) →
          Inv args s' := by
      intro s' hpcs hab hin hlast hstat hcl hpl hnc hem
      constructor
      case statusSome => rw [hstat]; exact h.statusSome
      case activeInflight =>
        intro k hact hab'
        rw [hpcs] at hact
        rw [hab] at hab'
        rw [hin]
        by_cases hki : k = i
        · subst hki
          exact h.activeInflight k (by simp [hpc, PC.isActive]) hab'
        · rw [setPC_other _ _ _ _ hki] at hact
          exact h.activeInflight k hact hab'
      case inflightLast =>
        intro k hk
        rw [hin] at hk
        rw [hlast]
        exact h.inflightLast k hk
      case commitLast =>
        intro e he
        rw [hcl] at he
        exact h.commitLast e he
      case commitZero =>
        intro k hk
        rw [hpcs] at hk
        rw [hcl]
        by_cases hki : k = i
        · subst hki
          rw [setPC_self] at hk
          simp [PC.preCommit] at hk
        · rw [setPC_other _ _ _ _ hki] at hk
          exact h.commitZero k hk
      case emitZero =>
        intro k hk
        rw [hpcs] at hk
        by_cases hki : k = i
        · subst hki
          rw [setPC_self] at hk
          simp [PC.preCommit] at hk
        · rw [hem k hki]
          rw [setPC_other _ _ _ _ hki] at hk
          exact h.emitZero k hk
      case persistZero =>
        intro k hk
        rw [hpcs] at hk
        rw [hpl]
        by_cases hki : k = i
        · subst hki
          rw [setPC_self] at hk
          simp [PC.preStore] at hk
        · rw [setPC_other _ _ _ _ hki] at hk
          exact h.persistZero k hk
      case persistEp =>
        intro x hx
        rw [hpl] at hx
        exact h.persistEp x hx
      case tokenNone =>
        intro k hk
        rw [hnc, hpcs]
        refine ⟨(h.tokenNone k hk).1, ?_⟩
        by_cases hki : k = i
        · subst hki
          rw [setPC_self]
          have := carryP _ (h.tokenNone k hk).2
          simpa [PC.resultsP] using this
        · rw [setPC_other _ _ _ _ hki]
          exact (h.tokenNone k hk).2
      case doneAborted =>
        intro k hk
        rw [hpcs] at hk
        rw [hab]
        by_cases hki : k = i
        · subst hki
          rw [setPC_self] at hk
          exact absurd hk (by simp)
        · rw [setPC_other _ _ _ _ hki] at hk
          exact h.doneAborted k hk
    split
    · exact stepPC _ rfl rfl rfl rfl rfl rfl rfl rfl (fun _ _ => rfl)
    · rename_i habt
      split
      · rename_i cur hstat
        refine stepPC _ rfl rfl rfl rfl rfl rfl rfl rfl ?_
        intro k hki
        dsimp only
        exact countP_append_emit_ne _ _ _ (fun hik => hki hik.symm)
      · exact stepPC _ rfl rfl rfl rfl rfl rfl rfl rfl (fun _ _ => rfl)
  · exact h

theorem inv_step_finish (args : Nat → AuthArgs) (s : MachineState) (i : Nat)
    (h : Inv args s) : Inv args (stepFn args s (.finish i)) := by
  simp only [stepFn]
  split
  · rename_i st hpc
    split
    · rename_i habt
      exact inv_finishWith h (fun _ => habt) (fun st' hst' _ => absurd hst' (by simp))
    · rename_i habt
      refine inv_finishWith h (fun hr => absurd hr (by simp)) ?_
      intro st' hst' htok
      injection hst' with h1
      rw [← h1]
      have := (h.tokenNone i htok).2
      rw [hpc] at this
      simpa [PC.resultsP] using this
  · exact h

theorem inv_step (args : Nat → AuthArgs) (s : MachineState) (a : Action) (h : Inv args s) :
    Inv args (stepFn args s a) := by
  cases a with
  | start i => exact inv_step_start args s i h
  | validationDone i => exact inv_step_validationDone args s i h
  | storeDone i => exact inv_step_storeDone args s i h
  | contextDone i => exact inv_step_contextDone args s i h
  | commit i => exact inv_step_commit args s i h
  | notifyDone i => exact inv_step_notifyDone args s i h
  | finish i => exact inv_step_finish args s i h
  | externalAbort i => exact inv_step_externalAbort args s i h

theorem inv_run (args : Nat → AuthArgs) (s : MachineState) (tr : List Action) (h : Inv args s) :
    Inv args (run args s tr) := by
  induction tr generalizing s with
  | nil => exact h
  | cons a tr ih => exact ih (stepFn args s a) (inv_step args s a h)

theorem inv_reachable (args : Nat → AuthArgs) (l : Option String) (tr : List Action) :
    Inv args (run args (initState l) tr) :=
  inv_run args (initState l) tr (inv_initState args l)

theorem step_aborted_mono (args : Nat → AuthArgs) (s : MachineState) (a : Action) (i : Nat)
    (h : s.aborted i = true) : (stepFn args s a).aborted i = true := by
  cases a
  all_goals simp only [stepFn]
  all_goals repeat' split
  all_goals first
    | exact h
    | (rw [finishWith_aborted]; exact h)
    | exact setFlag_mono _ _ _ h

theorem step_commitLog_frozen (args : Nat → AuthArgs) (s : MachineState) (a : Action) (i : Nat)
    (h : s.aborted i = true) :
    (stepFn args s a).commitLog.countP (fun e => e.1 == i) =
      s.commitLog.countP (fun e => e.1 == i) := by
  cases a
  all_goals simp only [stepFn]
  all_goals repeat' split
  all_goals first
    | rfl
    | rw [finishWith_commitLog]
    | exact countP_append_fst_ne _ _ _ (fun hji => by simp at hji; subst hji; simp_all)

theorem step_emissions_frozen (args : Nat → AuthArgs) (s : MachineState) (a : Action) (i : Nat)
    (h : s.aborted i = true) :
    (stepFn args s a).emissions.countP (fun e => e.1 == i) =
      s.emissions.countP (fun e => e.1 == i) := by
  cases a
  all_goals simp only [stepFn]
  all_goals repeat' split
  all_goals first
    | rfl
    | rw [finishWith_emissions]
    | exact countP_append_emit_ne _ _ _ (fun hji => by simp at hji; subst hji; simp_all)

theorem step_persistLog_frozen (args : Nat → AuthArgs) (s : MachineState) (a : Action) (i : Nat)
    (h : s.aborted i = true) :
    (stepFn args s a).persistLog.countP (fun j => j == i) =
      s.persistLog.countP (fun j => j == i) := by
  cases a
  all_goals simp only [stepFn]
  all_goals repeat' split
  all_goals first
    | rfl
    | rw [finishWith_persistLog]
    | exact countP_append_ne _ _ _ (fun hji => by subst hji; simp_all)

theorem run_aborted_mono (args : Nat → AuthArgs) (s : MachineState) (tr : List Action) (i : Nat)
    (h : s.aborted i = true) : (run args s tr).aborted i = true := by
  induction tr generalizing s with
  | nil => exact h
  | cons a tr ih => exact ih (stepFn args s a) (step_aborted_mono args s a i h)

theorem run_commitLog_frozen (args : Nat → AuthArgs) (s : MachineState) (tr : List Action)
    (i : Nat) (h : s.aborted i = true) :
    (run args s tr).commitLog.countP (fun e => e.1 == i) =
      s.commitLog.countP (fun e => e.1 == i) := by
  induction tr generalizing s with
  | nil => rfl
  | cons a tr ih =>
    exact (ih (stepFn args s a) (step_aborted_mono args s a i h)).trans
      (step_commitLog_frozen args s a i h)

theorem run_emissions_frozen (args : Nat → AuthArgs) (s : MachineState) (tr : List Action)
    (i : Nat) (h : s.aborted i = true) :
    (run args s tr).emissions.countP (fun e => e.1 == i) =
      s.emissions.countP (fun e => e.1 == i) := by
  induction tr generalizing s with
  | nil => rfl
  | cons a tr ih =>
    exact (ih (stepFn args s a) (step_aborted_mono args s a i h)).trans
      (step_emissions_frozen args s a i h)

theorem run_persistLog_frozen (args : Nat → AuthArgs) (s : MachineState) (tr : List Action)
    (i : Nat) (h : s.aborted i = true) :
    (run args s tr).persistLog.countP (fun j => j == i) =
      s.persistLog.countP (fun j => j == i) := by
  induction tr generalizing s with
  | nil => rfl
  | cons a tr ih =>
    exact (ih (stepFn args s a) (step_aborted_mono args s a i h)).trans
      (step_persistLog_frozen args s a i h)

/-- An invocation that is aborted while it has not yet committed can only
move within the pre-commit program counters or exit with the abort result. -/
def deadPC (p : PC) : Prop := p.preCommit = true ∨ p = .done .aborted

theorem step_dead (args : Nat → AuthArgs) (s : MachineState) (a : Action) (i : Nat)
    (hab : s.aborted i = true) (hpc : deadPC (s.pcs i)) :
    deadPC ((stepFn args s a).pcs i) := by
  cases a with
  | externalAbort j => exact hpc
  | start j =>
    simp only [stepFn]
    split
    · cases hinf : s.inflight with
      | none =>
        simp only [hinf]
        try dsimp only
        by_cases hij : i = j
        · subst hij
          rw [setPC_self]
          left
          rfl
        · rw [setPC_other _ _ _ _ hij]
          exact hpc
      | some k =>
        simp only [hinf]
        try dsimp only
        by_cases hij : i = j
        · subst hij
          rw [setPC_self]
          left
          rfl
        · rw [setPC_other _ _ _ _ hij]
          exact hpc
    · exact hpc
  | validationDone j =>
    simp only [stepFn]
    split
    · split
      · rw [finishWith_pcs]
        by_cases hij : i = j
        · subst hij
          rw [setPC_self]
          right
          rfl
        · rw [setPC_other _ _ _ _ hij]
          exact hpc
      · rename_i habt
        by_cases hij : i = j
        · subst hij
          exact absurd hab habt
        · try dsimp only
          rw [setPC_other _ _ _ _ hij]
          exact hpc
    · exact hpc
  | storeDone j =>
    simp only [stepFn]
    split
    · rename_i st heq
      split
      · rw [finishWith_pcs]
        by_cases hij : i = j
        · subst hij
          rw [setPC_self]
          right
          rfl
        · rw [setPC_other _ _ _ _ hij]
          exact hpc
      · rename_i habt
        by_cases hij : i = j
        · subst hij
          exact absurd hab habt
        · split
          · try dsimp only
            rw [setPC_other _ _ _ _ hij]
            exact hpc
          · split
            · rw [finishWith_pcs]
              rw [setPC_other _ _ _ _ hij]
              exact hpc
            · try dsimp only
              rw [setPC_other _ _ _ _ hij]
              exact hpc
    · exact hpc
  | contextDone j =>
    simp only [stepFn]
    split
    · rename_i st heq
      split
      · rw [finishWith_pcs]
        by_cases hij : i = j
        · subst hij
          rw [setPC_self]
          right
          rfl
        · rw [setPC_other _ _ _ _ hij]
          exact hpc
      · rename_i habt
        by_cases hij : i = j
        · subst hij
          exact absurd hab habt
        · try dsimp only
          rw [setPC_other _ _ _ _ hij]
          exact hpc
    · exact hpc
  | commit j =>
    simp only [stepFn]
    split
    · rename_i st heq
      split
      · rw [finishWith_pcs]
        by_cases hij : i = j
        · subst hij
          rw [setPC_self]
          right
          rfl
        · rw [setPC_other _ _ _ _ hij]
          exact hpc
      · rename_i habt
        by_cases hij : i = j
        · subst hij
          exact absurd hab habt
        · try dsimp only
          rw [setPC_other _ _ _ _ hij]
          exact hpc
    · exact hpc
  | notifyDone j =>
    simp only [stepFn]
    split
    · rename_i st heq
      by_cases hij : i = j
      · subst hij
        rw [heq] at hpc
        cases hpc with
        | inl h1 => simp [PC.preCommit] at h1
        | inr h1 => exact absurd h1 (by simp)
      · split
        · try dsimp only
          rw [setPC_other _ _ _ _ hij]
          exact hpc
        · split
          · try dsimp only
            rw [setPC_other _ _ _ _ hij]
            exact hpc
          · try dsimp only
            rw [setPC_other _ _ _ _ hij]
            exact hpc
    · exact hpc
  | finish j =>
    simp only [stepFn]
    split
    · rename_i st heq
      by_cases hij : i = j
      · subst hij
        rw [heq] at hpc
        cases hpc with
        | inl h1 => simp [PC.preCommit] at h1
        | inr h1 => exact absurd h1 (by simp)
      · split
        · rw [finishWith_pcs]
          rw [setPC_other _ _ _ _ hij]
          exact hpc
        · rw [finishWith_pcs]
          rw [setPC_other _ _ _ _ hij]
          exact hpc
    · exact hpc

theorem run_dead (args : Nat → AuthArgs) (s : MachineState) (tr : List Action) (i : Nat)
    (hab : s.aborted i = true) (hpc : deadPC (s.pcs i)) :
    deadPC ((run args s tr).pcs i) := by
  induction tr generalizing s with
  | nil => exact hpc
  | cons a tr ih =>
    exact ih (stepFn args s a) (step_aborted_mono args s a i hab) (step_dead args s a i hab hpc)

/-- C10: after the AuthProvider constructor returns, the status field is
never null again: along every scheduler trace, getAuthStatus returns a
status and its AuthStatus-is-not-ready error branch is unreachable. -/
theorem c10_status_always_ready (l : Option String) (args : Nat → AuthArgs)
    (tr : List Action) :
    ∃ st, getAuthStatus (run args (initState l) tr) = .ok st := by
  have h := (inv_reachable args l tr).statusSome
  rcases hstat : (run args (initState l) tr).status with _ | st
  · rw [hstat] at h
    simp at h
  · exact ⟨st, by simp [getAuthStatus, hstat]⟩

/-- C5: an authenticate invocation with a null token never issues a network
call to the remote validator, and every AuthStatus it returns has isLoggedIn
false, a null user and a null site. -/
theorem c5_null_token_no_network (l : Option String) (args : Nat → AuthArgs)
    (tr : List Action) (i : Nat) (htok : (args i).token = none) :
    (run args (initState l) tr).networkCalls.countP (fun j => j == i) = 0 ∧
      ∀ st, (run args (initState l) tr).pcs i = .done (.ok st) →
        st.isLoggedIn = false ∧ st.user = none ∧ st.site = none := by
  have h := (inv_reachable args l tr).tokenNone i htok
  refine ⟨h.1, ?_⟩
  intro st hst
  have h2 := h.2
  rw [hst] at h2
  simpa [PC.resultsP] using h2

theorem c5_witness :
    (argsNoToken 0).token = none ∧
      (run argsNoToken (initState none) soloTrace).networkCalls.countP (fun j => j == 0) = 0 ∧
      (makeAuthStatusNoToken "https://a.example/").isLoggedIn = false ∧
      (makeAuthStatusNoToken "https://a.example/").user = none ∧
      (makeAuthStatusNoToken "https://a.example/").site = none :=
  ⟨rfl, (c5_null_token_no_network none argsNoToken soloTrace 0 rfl).1,
    ((c5_null_token_no_network none argsNoToken soloTrace 0 rfl).2 _ (by decide)).1,
    ((c5_null_token_no_network none argsNoToken soloTrace 0 rfl).2 _ (by decide)).2.1,
    ((c5_null_token_no_network none argsNoToken soloTrace 0 rfl).2 _ (by decide)).2.2⟩

/-- C6: for a validation whose user-info fetch returns a non-error result,
the produced status has isLoggedIn equal to siteHasCodyEnabled AND the
presence of user info; in particular siteHasCodyEnabled false forces
isLoggedIn false even with valid user info. -/
theorem c6_isLoggedIn_conjunction (ep : String) (r : ValidatorResponse)
    (herr : r.userInfo.isErr = false) :
    (makeAuthStatusValidated ep r).isLoggedIn =
        (r.siteHasCodyEnabled && r.userInfo.value.isSome) ∧
      (r.siteHasCodyEnabled = false → (makeAuthStatusValidated ep r).isLoggedIn = false) := by
  cases hu : r.userInfo with
  | err m =>
    rw [hu] at herr
    simp [UserInfoResult.isErr] at herr
  | missing =>
    constructor
    · simp [makeAuthStatusValidated, hu, UserInfoResult.value]
    · intro h
      simp [makeAuthStatusValidated, hu, h, UserInfoResult.value]
  | ok u =>
    constructor
    · simp [makeAuthStatusValidated, hu, UserInfoResult.value]
    · intro h
      simp [makeAuthStatusValidated, hu, h, UserInfoResult.value]

theorem c6_witness :
    rOk.userInfo.isErr = false ∧
      (makeAuthStatusValidated "https://e.example/" rOk).isLoggedIn =
        (rOk.siteHasCodyEnabled && rOk.userInfo.value.isSome) ∧
      (makeAuthStatusValidated "https://e.example/"
        { rOk with siteHasCodyEnabled := false }).isLoggedIn = false :=
  ⟨by decide, (c6_isLoggedIn_conjunction "https://e.example/" rOk (by decide)).1,
    (c6_isLoggedIn_conjunction "https://e.example/" { rOk with siteHasCodyEnabled := false }
      (by decide)).2 rfl⟩

/-- C7 counterexample: the empty version string does not parse as semver,
yet on a non-dotcom endpoint the inferred ordinal is 1 and not the claimed
oldest ordinal 0 — matching the repository's own utils.test.ts expectations
(codyApiVersion 1 with an empty siteVersion on a non-dotcom endpoint). -/
theorem c7_counterexample :
    parseSemver "" = none ∧ inferCodyApiVersion "" false = 1 := by
  decide

/-- C7 amended: version 5.2.0 on a non-dotcom endpoint maps to the legacy
ordinal 0; any version string on the dotcom endpoint maps to the newest
ordinal 1; and a malformed (non-semver) version string maps to the newest
ordinal 1 — rather than failing — instead of the oldest ordinal. -/
theorem c7_api_version (v : String) :
    inferCodyApiVersion "5.2.0" false = 0 ∧
      inferCodyApiVersion v true = 1 ∧
      (parseSemver v = none → inferCodyApiVersion v false = 1) := by
  refine ⟨by decide, by simp [inferCodyApiVersion], ?_⟩
  intro h
  simp [inferCodyApiVersion, h]

theorem c7_witness :
    inferCodyApiVersion "5.2.0" false = 0 ∧
      inferCodyApiVersion "not-a-version" true = 1 ∧
      inferCodyApiVersion "not-a-version" false = 1 :=
  ⟨(c7_api_version "not-a-version").1, (c7_api_version "not-a-version").2.1,
    (c7_api_version "not-a-version").2.2 (by decide)⟩

/-- C4: auth never propagates an exception to its caller except the abort
error, and the abort outcome occurs only for an invocation whose cancellation
signal actually fired; a validator error is never thrown but folded into a
returned status that is logged out and classified offline or error. -/
theorem c4_no_throw_except_abort (l : Option String) (args : Nat → AuthArgs)
    (tr : List Action) (i : Nat) (ep m : String) (r : ValidatorResponse) :
    ((run args (initState l) tr).pcs i = .done .aborted →
        (run args (initState l) tr).aborted i = true) ∧
      (r.userInfo = .err m →
        (makeAuthStatusValidated ep r).isLoggedIn = false ∧
          ((makeAuthStatusValidated ep r).ephemeralConnectivityStatus = .offline ∨
            (makeAuthStatusValidated ep r).ephemeralConnectivityStatus = .error)) := by
  constructor
  · exact fun h => (inv_reachable args l tr).doneAborted i h
  · intro herr
    constructor
    · simp [makeAuthStatusValidated, herr]
    · cases hoff : isLikelyOfflineError m with
      | true =>
        left
        simp [makeAuthStatusValidated, herr, hoff]
      | false =>
        right
        simp [makeAuthStatusValidated, herr, hoff]

theorem c4_witness :
    (run argsAB (initState none) trSupersedeFull).aborted 0 = true ∧
      (makeAuthStatusValidated "https://e.example/" rErr).isLoggedIn = false ∧
      ((makeAuthStatusValidated "https://e.example/" rErr).ephemeralConnectivityStatus =
          .offline ∨
        (makeAuthStatusValidated "https://e.example/" rErr).ephemeralConnectivityStatus =
          .error) :=
  ⟨(c4_no_throw_except_abort none argsAB trSupersedeFull 0 "https://e.example/"
      "HTTP status code 401" rErr).1 (by decide),
    (c4_no_throw_except_abort none argsAB trSupersedeFull 0 "https://e.example/"
      "HTTP status code 401" rErr).2 (by decide)⟩

/-- C3 counterexample: a token-shaped endpoint fails URL normalization, yet
because a non-null token is supplied the invocation still initiates the
validator network calls at its start step — the attempt is not abandoned
before any network call to the remote validator. -/
theorem c3_counterexample :
    formatURL "sgp_c0ffee0123456789c0ffee0123456789c0ffee01" = none ∧
      (run argsTokenEndpoint (initState none) [.start 0]).networkCalls = [0] := by
  decide

/-- C3 amended: when the endpoint fails URL normalization, the invocation
never mutates persisted state (the empty normalized endpoint is never
stored); the attempt short-circuits before any network call only when the
token is also null, in which case every returned status is not logged in
with null user and site. -/
theorem c3_malformed_endpoint (l : Option String) (args : Nat → AuthArgs) (tr : List Action)
    (i : Nat) (hurl : formatURL (args i).endpoint = none) :
    (run args (initState l) tr).persistLog.countP (fun j => j == i) = 0 ∧
      ((args i).token = none →
        (run args (initState l) tr).networkCalls.countP (fun j => j == i) = 0 ∧
          ∀ st, (run args (initState l) tr).pcs i = .done (.ok st) →
            st.isLoggedIn = false ∧ st.user = none ∧ st.site = none) := by
  have hInv := inv_reachable args l tr
  constructor
  · rw [List.countP_eq_zero]
    intro x hx
    have hep := hInv.persistEp x hx
    simp only [beq_iff_eq]
    intro hxi
    subst hxi
    exact hep (by simp [normalizedEndpoint, hurl])
  · intro htok
    have h := hInv.tokenNone i htok
    refine ⟨h.1, ?_⟩
    intro st hst
    have h2 := h.2
    rw [hst] at h2
    simpa [PC.resultsP] using h2

theorem c3_witness :
    formatURL (argsTokenEndpointNoTok 0).endpoint = none ∧
      (run argsTokenEndpointNoTok (initState none) soloTrace).persistLog.countP
        (fun j => j == 0) = 0 ∧
      (run argsTokenEndpointNoTok (initState none) soloTrace).networkCalls.countP
        (fun j => j == 0) = 0 ∧
      (makeAuthStatusNoToken "").isLoggedIn = false ∧
      (makeAuthStatusNoToken "").user = none ∧
      (makeAuthStatusNoToken "").site = none :=
  ⟨by decide,
    (c3_malformed_endpoint none argsTokenEndpointNoTok soloTrace 0 (by decide)).1,
    ((c3_malformed_endpoint none argsTokenEndpointNoTok soloTrace 0 (by decide)).2 rfl).1,
    (((c3_malformed_endpoint none argsTokenEndpointNoTok soloTrace 0 (by decide)).2 rfl).2 _
      (by decide)).1,
    (((c3_malformed_endpoint none argsTokenEndpointNoTok soloTrace 0 (by decide)).2 rfl).2 _
      (by decide)).2.1,
    (((c3_malformed_endpoint none argsTokenEndpointNoTok soloTrace 0 (by decide)).2 rfl).2 _
      (by decide)).2.2⟩

/-- C8: an invocation whose validation has resolved, with its signal unfired,
a non-empty normalized endpoint, a non-null token and a working store,
persists endpoint and token at its persistence step even when the validated
status has isLoggedIn false; and an invocation whose signal fires while it
has not yet reached the persistence step never writes the credential store
afterwards. -/
theorem c8_persistence (l : Option String) (args : Nat → AuthArgs) (tr : List Action)
    (i : Nat) :
    (∀ st t, (run args (initState l) tr).pcs i = .validated st →
      (run args (initState l) tr).aborted i = false →
      normalizedEndpoint (args i) ≠ "" →
      (args i).token = some t →
      (args i).storeFails = false →
      st.isLoggedIn = false →
      (stepFn args (run args (initState l) tr) (.storeDone i)).credTokens
          (normalizedEndpoint (args i)) = some t ∧
        (stepFn args (run args (initState l) tr) (.storeDone i)).savedEndpoint =
          some (normalizedEndpoint (args i))) ∧
      ((run args (initState l) tr).aborted i = true →
        ((run args (initState l) tr).pcs i).preStore = true →
        ∀ tr2,
          (run args (run args (initState l) tr) tr2).persistLog.countP
            (fun j => j == i) = 0) := by
  constructor
  · intro st t hpc hab hep htok hsf hnotlog
    simp only [stepFn, hpc]
    rw [if_neg (by simp [hab]), if_neg hep, if_neg (by simp [hsf])]
    constructor
    · show (match (args i).token with
        | some t' => fun e =>
          if e = normalizedEndpoint (args i) then some t'
          else (run args (initState l) tr).credTokens e
        | none => (run args (initState l) tr).credTokens) (normalizedEndpoint (args i)) =
          some t
      rw [htok]
      simp
    · rfl
  · intro hab hpre tr2
    rw [run_persistLog_frozen args _ tr2 i hab]
    exact (inv_reachable args l tr).persistZero i hpre

theorem c8_witness :
    (stepFn argsDisabled (run argsDisabled (initState none) [.start 0, .validationDone 0])
        (.storeDone 0)).credTokens (normalizedEndpoint (argsDisabled 0)) = some "tokA" ∧
      (stepFn argsDisabled (run argsDisabled (initState none) [.start 0, .validationDone 0])
        (.storeDone 0)).savedEndpoint = some (normalizedEndpoint (argsDisabled 0)) ∧
      (run argsAB (run argsAB (initState none) [.start 0, .start 1])
        [.validationDone 0, .validationDone 1, .storeDone 1, .contextDone 1, .commit 1,
          .notifyDone 1, .finish 1]).persistLog.countP (fun j => j == 0) = 0 :=
  ⟨((c8_persistence none argsDisabled [.start 0, .validationDone 0] 0).1
      (mkValidatedStatus (argsDisabled 0)) "tokA" (by decide) (by decide) (by decide) rfl rfl
      (by decide)).1,
    ((c8_persistence none argsDisabled [.start 0, .validationDone 0] 0).1
      (mkValidatedStatus (argsDisabled 0)) "tokA" (by decide) (by decide) (by decide) rfl rfl
      (by decide)).2,
    (c8_persistence none argsAB [.start 0, .start 1] 0).2 (by decide) (by decide)
      [.validationDone 0, .validationDone 1, .storeDone 1, .contextDone 1, .commit 1,
        .notifyDone 1, .finish 1]⟩

/-- C1: starting a new authenticate invocation cancels every other in-flight
invocation while the new invocation has not yet resolved any validation;
every commit recorded in the commit log was performed by the invocation that
was the most recently initiated at the moment of the commit; and an aborted
(superseded) invocation never commits afterwards, regardless of when its
network validation completes. -/
theorem c1_last_writer_wins (l : Option String) (args : Nat → AuthArgs) (tr : List Action) :
    (∀ e ∈ (run args (initState l) tr).commitLog, e.2 = some e.1) ∧
      (∀ j, (run args (initState l) tr).pcs j = .notStarted →
        (stepFn args (run args (initState l) tr) (.start j)).pcs j = .started ∧
          ∀ i, i ≠ j → ((run args (initState l) tr).pcs i).isActive = true →
            (stepFn args (run args (initState l) tr) (.start j)).aborted i = true) ∧
      (∀ i, (run args (initState l) tr).aborted i = true →
        ∀ tr2,
          (run args (run args (initState l) tr) tr2).commitLog.countP
              (fun e => e.1 == i) =
            (run args (initState l) tr).commitLog.countP (fun e => e.1 == i)) := by
  have hInv := inv_reachable args l tr
  refine ⟨hInv.commitLast, ?_, ?_⟩
  · intro j hj
    constructor
    · simp only [stepFn]
      rw [if_pos hj]
      cases hinf : (run args (initState l) tr).inflight with
      | none =>
        simp only [hinf]
        exact setPC_self _ _ _
      | some k =>
        simp only [hinf]
        exact setPC_self _ _ _
    · intro i hij hact
      by_cases habi : (run args (initState l) tr).aborted i = true
      · exact step_aborted_mono args _ (.start j) i habi
      · have habi2 : (run args (initState l) tr).aborted i = false := by
          revert habi
          cases (run args (initState l) tr).aborted i
          all_goals simp
        have hin := hInv.activeInflight i hact habi2
        simp only [stepFn]
        rw [if_pos hj]
        simp only [hin]
        exact setFlag_self _ _
  · intro i habi tr2
    exact run_commitLog_frozen args _ tr2 i habi

theorem c1_witness :
    (stepFn argsAB (run argsAB (initState none) [.start 0, .validationDone 0]) (.start 1)).pcs
        1 = .started ∧
      (stepFn argsAB (run argsAB (initState none) [.start 0, .validationDone 0])
        (.start 1)).aborted 0 = true ∧
      (run argsAB (run argsAB (initState none) [.start 0, .start 1])
          [.validationDone 0, .validationDone 1, .storeDone 1, .contextDone 1, .commit 1,
            .notifyDone 1, .finish 1]).commitLog.countP (fun e => e.1 == 0) =
        (run argsAB (initState none) [.start 0, .start 1]).commitLog.countP
          (fun e => e.1 == 0) :=
  ⟨((c1_last_writer_wins none argsAB [.start 0, .validationDone 0]).2.1 1 (by decide)).1,
    ((c1_last_writer_wins none argsAB [.start 0, .validationDone 0]).2.1 1 (by decide)).2 0
      (by decide) (by decide),
    (c1_last_writer_wins none argsAB [.start 0, .start 1]).2.2 0 (by decide)
      [.validationDone 0, .validationDone 1, .storeDone 1, .contextDone 1, .commit 1,
        .notifyDone 1, .finish 1]⟩

/-- C2 counterexample: invocation 0 persists its credentials, then is
superseded by invocation 1 before committing — its cancellation signal fires
before its commit, it never commits and it terminates with the abort error —
yet the credential store retains invocation 0's token, so a cancelled
invocation is not free of observable side effects. -/
theorem c2_counterexample :
    (run argsAB (initState none) trSupersede).aborted 0 = true ∧
      ((run argsAB (initState none) trSupersede).pcs 0).preCommit = true ∧
      (run argsAB (initState none) trSupersede).credTokens "https://a.example/" =
        some "tokA" ∧
      (run argsAB (initState none) trSupersedeFull).pcs 0 = .done .aborted := by
  decide

/-- C2 amended: an invocation whose cancellation signal fires before its
commit never commits a status, never fires a change notification, and can
only terminate with the abort error; if the signal fired before it reached
its persistence step, the credential store is never written by it — but side
effects already performed before the signal fired (a completed persistence)
are not rolled back. -/
theorem c2_cancelled_before_commit (l : Option String) (args : Nat → AuthArgs)
    (tr : List Action) (i : Nat)
    (hab : (run args (initState l) tr).aborted i = true)
    (hpc : ((run args (initState l) tr).pcs i).preCommit = true) :
    ∀ tr2,
      (run args (run args (initState l) tr) tr2).commitLog.countP
          (fun e => e.1 == i) = 0 ∧
        (run args (run args (initState l) tr) tr2).emissions.countP
          (fun e => e.1 == i) = 0 ∧
        (∀ r, (run args (run args (initState l) tr) tr2).pcs i = .done r → r = .aborted) ∧
        (((run args (initState l) tr).pcs i).preStore = true →
          (run args (run args (initState l) tr) tr2).persistLog.countP
            (fun j => j == i) = 0) := by
  intro tr2
  have hInv := inv_reachable args l tr
  refine ⟨?_, ?_, ?_, ?_⟩
  · rw [run_commitLog_frozen args _ tr2 i hab]
    exact hInv.commitZero i hpc
  · rw [run_emissions_frozen args _ tr2 i hab]
    exact hInv.emitZero i hpc
  · intro r hr
    have hd := run_dead args _ tr2 i hab (Or.inl hpc)
    cases hd with
    | inl h1 =>
      rw [hr] at h1
      simp [PC.preCommit] at h1
    | inr h1 =>
      rw [hr] at h1
      injection h1 with h2
  · intro hps
    rw [run_persistLog_frozen args _ tr2 i hab]
    exact hInv.persistZero i hps

theorem c2_witness :
    (run argsAB (run argsAB (initState none) [.start 0, .start 1])
        [.validationDone 0, .validationDone 1, .storeDone 1, .contextDone 1, .commit 1,
          .notifyDone 1, .finish 1]).commitLog.countP (fun e => e.1 == 0) = 0 ∧
      (run argsAB (run argsAB (initState none) [.start 0, .start 1])
        [.validationDone 0, .validationDone 1, .storeDone 1, .contextDone 1, .commit 1,
          .notifyDone 1, .finish 1]).emissions.countP (fun e => e.1 == 0) = 0 ∧
      AuthResult.aborted = AuthResult.aborted ∧
      (run argsAB (run argsAB (initState none) [.start 0, .start 1])
        [.validationDone 0, .validationDone 1, .storeDone 1, .contextDone 1, .commit 1,
          .notifyDone 1, .finish 1]).persistLog.countP (fun j => j == 0) = 0 :=
  ⟨((c2_cancelled_before_commit none argsAB [.start 0, .start 1] 0 (by decide) (by decide))
      [.validationDone 0, .validationDone 1, .storeDone 1, .contextDone 1, .commit 1,
        .notifyDone 1, .finish 1]).1,
    ((c2_cancelled_before_commit none argsAB [.start 0, .start 1] 0 (by decide) (by decide))
      [.validationDone 0, .validationDone 1, .storeDone 1, .contextDone 1, .commit 1,
        .notifyDone 1, .finish 1]).2.1,
    ((c2_cancelled_before_commit none argsAB [.start 0, .start 1] 0 (by decide) (by decide))
      [.validationDone 0, .validationDone 1, .storeDone 1, .contextDone 1, .commit 1,
        .notifyDone 1, .finish 1]).2.2.1 .aborted (by decide),
    ((c2_cancelled_before_commit none argsAB [.start 0, .start 1] 0 (by decide) (by decide))
      [.validationDone 0, .validationDone 1, .storeDone 1, .contextDone 1, .commit 1,
        .notifyDone 1, .finish 1]).2.2.2 (by decide)⟩

theorem dUCgo_chain (prev : AuthStatus) (xs : List AuthStatus) :
    List.Chain' (fun a b => a ≠ b) (prev :: dUCgo prev xs) := by
  induction xs generalizing prev with
  | nil => simp [dUCgo]
  | cons y ys ih =>
    simp only [dUCgo]
    split
    · exact ih prev
    · rename_i hne
      rw [List.chain'_cons]
      exact ⟨fun h => hne h.symm, ih y⟩

theorem dUCgo_dup (prev : AuthStatus) (xs : List AuthStatus) (s : AuthStatus) :
    dUCgo prev (xs ++ [s, s]) = dUCgo prev (xs ++ [s]) := by
  induction xs generalizing prev with
  | nil =>
    simp only [List.nil_append, dUCgo]
    split
    · rename_i h
      simp [dUCgo, h]
    · rename_i h
      simp [dUCgo]
  | cons y ys ih =>
    simp only [List.cons_append, dUCgo]
    split
    · exact ih prev
    · exact congrArg (fun l => y :: l) (ih y)

theorem dUC_dup (xs : List AuthStatus) (s : AuthStatus) :
    distinctUntilChanged (xs ++ [s, s]) = distinctUntilChanged (xs ++ [s]) := by
  cases xs with
  | nil => simp [distinctUntilChanged, dUCgo]
  | cons x xs =>
    simp only [List.cons_append, distinctUntilChanged]
    rw [dUCgo_dup]

/-- C9: the changes stream never emits two consecutive structurally equal
statuses; a repeated identical commit adds no emission to the deduplicated
stream; and the concrete schedule of two authenticate invocations with
identical inputs and identical validator responses fires the change event
twice but the stream yields that status exactly once. -/
theorem c9_changes_dedup (l : Option String) (args : Nat → AuthArgs) (tr : List Action)
    (xs : List AuthStatus) (s : AuthStatus) :
    List.Chain' (fun a b => a ≠ b) (changes l args tr) ∧
      distinctUntilChanged (xs ++ [s, s]) = distinctUntilChanged (xs ++ [s]) ∧
      firedStatuses (run argsSolo (initState none) trTwice) =
        [mkValidatedStatus (argsSolo 0), mkValidatedStatus (argsSolo 0)] ∧
      (changes none argsSolo trTwice).count (mkValidatedStatus (argsSolo 0)) = 1 := by
  refine ⟨?_, dUC_dup xs s, by decide, by decide⟩
  show List.Chain' (fun a b => a ≠ b)
    (distinctUntilChanged
      (initialStatus ((l).getD DOTCOM_URL) ::
        firedStatuses (run args (initState l) tr)))
  exact dUCgo_chain _ _

end Cody
